import Mathlib

/-!
Verification of the `readme-generator` backend route
(`src/app/api/generate-readme/route.ts`) against its specification.

The development shallowly embeds the route handler: the URL regex
`/github\.com\/([^\/]+)\/([^\/]+?)(\.git)?$/i` is modelled as an executable
matcher over `List Char` (leftmost match attempt, greedy first group, lazy
second group, end anchor, ASCII case-insensitivity); the handler `POST` is a
pure function from the request environment, the parsed body, and the outcomes
of the outbound calls to the HTTP response paired with the trace of outbound
network calls it issues.
-/

namespace ReadmeGen

/-- ASCII lower-casing: the canonicalisation the `/i` regex flag performs on
the ASCII-only pattern `github\.com` / `\.git` (non-ASCII characters never
canonicalise onto ASCII ones without the `u` flag). -/
def asciiLower (c : Char) : Char :=
  if 'A' ≤ c ∧ c ≤ 'Z' then Char.ofNat (c.toNat + 32) else c

/-- A character list with no `'/'`, i.e. a string matched by `[^\/]+` pieces. -/
def slashFree (l : List Char) : Bool := l.all (fun c => c != '/')

/-- The literal characters of the pattern `github\.com`. -/
def githubChars : List Char := ['g', 'i', 't', 'h', 'u', 'b', '.', 'c', 'o', 'm']

/-- The literal characters of the optional pattern `\.git`. -/
def gitSuffixChars : List Char := ['.', 'g', 'i', 't']

/-- Lazy matching of `([^\/]+?)(\.git)?$` against the residue `r`: the second
capture group takes the shortest non-empty prefix of `r` that leaves either
nothing or a case variant of `.git`, so a single trailing `.git` is stripped
whenever at least one character remains before it. -/
def stripGit (r : List Char) : List Char :=
  if 5 ≤ r.length ∧ (r.drop (r.length - 4)).map asciiLower = gitSuffixChars then
    r.take (r.length - 4)
  else r

/-- Matching of `\/([^\/]+)\/([^\/]+?)(\.git)?$` at a fixed position: a slash,
the greedy owner group (the maximal slash-free run, necessarily ending at the
next slash), a slash, and a slash-free residue consumed by the lazy repo group
and the optional `.git`, anchored at the end of input.  Returns the two
captured groups (the repo with the `.git` suffix already stripped). -/
def matchTail (t : List Char) : Option (List Char × List Char) :=
  match t with
  | [] => none
  | c :: u =>
    if c = '/' then
      let o := u.takeWhile (fun x => x != '/')
      if o.isEmpty then none
      else
        match u.dropWhile (fun x => x != '/') with
        | [] => none
        | d :: r =>
          if d = '/' then
            if r.isEmpty || !(slashFree r) then none else some (o, stripGit r)
          else none
    else none

/-- One attempt of the whole regex at a fixed start position: the ten pattern
characters `github.com` case-insensitively, then the tail pattern. -/
def tryAt (s : List Char) : Option (List Char × List Char) :=
  if (s.take 10).map asciiLower = githubChars then matchTail (s.drop 10) else none

/-- Leftmost-match search of the regex engine: attempt the pattern at every
start position from the left, returning the first success. -/
def regexFind : List Char → Option (List Char × List Char)
  | [] => none
  | c :: t =>
    match tryAt (c :: t) with
    | some v => some v
    | none => regexFind t

/-- Embedding of `repoUrl.match(/github\.com\/([^\/]+)\/([^\/]+?)(\.git)?$/i)`
together with the extraction of groups 1 and 2 into `owner` and `repo`. -/
def parseRepoUrl (s : String) : Option (String × String) :=
  (regexFind s.toList).map (fun p => (String.mk p.1, String.mk p.2))

/-- JavaScript `a || b` on strings: the empty string is the only falsy string. -/
def jsOrStr (s d : String) : String := if s = "" then d else s

/-- JavaScript `a || b` where `a` may also be `null`/`undefined` (modelled as
`none`). -/
def jsOrOpt (o : Option String) (d : String) : String :=
  match o with
  | some s => jsOrStr s d
  | none => d

/-- Truthiness test `!x` on a possibly-absent string environment variable:
falsy when absent or empty. -/
def isFalsyOptStr : Option String → Bool
  | none => true
  | some s => s == ""

/-- Embedding of `safeDecodeBase64`.  The `decode` parameter stands for the
pipeline `Buffer.from(s, base64).toString(utf-8)` followed by `JSON.parse`,
returning `none` exactly when that pipeline throws (the catch branch returns
null).  The guard `if (!encoded) return null` fires on `undefined` and on the
empty string. -/
def safeDecodeBase64 {J : Type} (decode : String → Option J) (encoded : Option String) : Option J :=
  match encoded with
  | none => none
  | some s => if s = "" then none else decode s

/-- Fields of the repository-metadata response used by the handler. -/
structure RepoData where
  description : Option String
  language : Option String

/-- An entry of the root directory listing: `{ name: item.name, type: item.type }`. -/
structure RootEntry where
  name : String
  type : String

/-- The decoded `package.json` fields the handler reads; the list fields are
the key lists that `Object.keys` produces (`some []` models a present but
empty object, which is still truthy in JavaScript). -/
structure PkgJson where
  name : Option String
  dependencies : Option (List String)
  scripts : Option (List String)

/-- Outcome of one outbound hosting-API request: the resolved value, or a
rejection carrying `error.status` (absent on non-HTTP failures) and
`error.message`. -/
inductive FetchResult (α : Type) where
  | ok (v : α)
  | err (status : Option Nat) (msg : String)

/-- The request body as the handler observes it: `request.json()` threw, the
`repoUrl` field was missing/nullish, it was a non-string value (whose method
call then throws a TypeError with some message), or it was a string. -/
inductive ReqBody where
  | badJson (msg : String)
  | missingUrl
  | nonString (msg : String)
  | strUrl (s : String)

/-- Outcome of the inference-API phase: client construction or the
`generateContent` request threw; the result carried no `response` object;
`response.text()` threw; or text extraction succeeded. -/
inductive AiOutcome where
  | initThrow (msg : String)
  | requestThrow (msg : String)
  | noResponse
  | textErr (msg : String)
  | textOk (text : String)

/-- The JSON body of the HTTP response. -/
inductive RespBody where
  | readme (s : String)
  | error (s : String)

/-- The HTTP response `NextResponse.json(body, { status })`. -/
structure Response where
  status : Nat
  body : RespBody

/-- One outbound network call issued by the handler. -/
inductive NetCall where
  | repoGet (owner repo : String)
  | listLanguages (owner repo : String)
  | getContent (owner repo path : String)
  | aiGenerate (prompt : String)

/-- Everything the handler reads from its environment in one invocation: the
two environment variables, the parsed request body, the outcome each outbound
call would have if issued, the decode pipeline for `package.json`, and the
inference outcome. -/
structure HandlerInput where
  googleApiKey : Option String
  githubPat : Option String
  body : ReqBody
  repoFetch : FetchResult RepoData
  langFetch : FetchResult (List String)
  rootFetch : FetchResult (Option (List RootEntry))
  pkgFetch : FetchResult (Option String)
  decodePkg : String → Option PkgJson
  ai : AiOutcome

/-- The URL-parsing phase: produces `(repoUrl, owner, repo)` or the message of
the 400 response.  `request.json()` failures and TypeErrors surface
`error.message || 'Invalid request format or URL.'`; a missing `repoUrl` or a
regex mismatch throws `Could not parse GitHub owner/repo from URL.`. -/
def parsePhase : ReqBody → Except String (String × String × String)
  | .badJson m => .error (jsOrStr m "Invalid request format or URL.")
  | .missingUrl => .error "Could not parse GitHub owner/repo from URL."
  | .nonString m => .error (jsOrStr m "Invalid request format or URL.")
  | .strUrl s =>
    match parseRepoUrl s with
    | some (o, r) => .ok (s, o, r)
    | none => .error "Could not parse GitHub owner/repo from URL."

/-- The handler state after the GitHub fetch phase. -/
structure FetchState where
  repoInfo : Option RepoData
  languages : Option (List String)
  rootContent : List RootEntry
  packageJsonContent : Option PkgJson
  fetchError : Option String

/-- Interpolation of `error.status || 'Unknown'` (a missing or zero status is
falsy). -/
def statusStr : Option Nat → String
  | some n => if n = 0 then "Unknown" else toString n
  | none => "Unknown"

/-- The fetch-error string recorded by the catch block around the GitHub
fetches. -/
def githubErrMsg (st : Option Nat) (m : String) : String :=
  "Failed to fetch data from GitHub (Status: " ++ statusStr st ++ "). " ++ m

/-- The `.catch` attached to the `package.json` promise: a 404 resolves to
null (the file is optional), any other rejection is re-thrown. -/
def pkgCaught : FetchResult (Option String) → FetchResult (Option (Option String))
  | .ok v => .ok (some v)
  | .err st m => if st = some 404 then .ok none else .err st m

/-- The state when `Promise.all` rejected: no assignment ran, so all data
fields keep their initial values and only `fetchError` is set. -/
def failState (st : Option Nat) (m : String) : FetchState :=
  ⟨none, none, [], none, some (githubErrMsg st m)⟩

/-- The fetch phase: four concurrent requests joined by `Promise.all`, with
the 404-tolerant catch on the `package.json` one.  A rejection of any mandatory
request (or a non-404 `package.json` failure) reaches the catch block and
records `fetchError`; `Promise.all` rejects with one of the failures, modelled
here as the first failing entry in array order.  On success the root listing is
kept only when the response data is an array, and `packageJsonContent` is
decoded only when the response data has a `content` field. -/
def fetchPhase (repoF : FetchResult RepoData) (langF : FetchResult (List String))
    (rootF : FetchResult (Option (List RootEntry))) (pkgF : FetchResult (Option String))
    (decode : String → Option PkgJson) : FetchState :=
  match repoF, langF, rootF, pkgCaught pkgF with
  | .ok rd, .ok ls, .ok rt, .ok pkgOpt =>
    { repoInfo := some rd
      languages := some ls
      rootContent := rt.getD []
      packageJsonContent :=
        match pkgOpt with
        | some (some content) => safeDecodeBase64 decode (some content)
        | _ => none
      fetchError := none }
  | .err st m, _, _, _ => failState st m
  | .ok _, .err st m, _, _ => failState st m
  | .ok _, .ok _, .err st m, _ => failState st m
  | .ok _, .ok _, .ok _, .err st m => failState st m

/-- The fetch-error string of the template-literal variant of the route,
which appends a spelling hint to the message. -/
def githubErrMsgRoute (st : Option Nat) (m : String) : String :=
  "Failed to fetch data from GitHub (Status: " ++ statusStr st ++ "). " ++ m ++
    ". Is the repository public and spelled correctly?"

/-- The fetch phase of the template-literal variant (`route.ts` lines 71 to
110): the four requests run sequentially with assignment after each await, so
a mandatory failure keeps the data fetched before it and skips the rest; the
`package.json` request sits in an inner try/catch whose catch only logs — a
404 and any other failure alike are swallowed, record no fetch error, and
leave `packageJsonContent` null. -/
def fetchPhaseRoute (repoF : FetchResult RepoData) (langF : FetchResult (List String))
    (rootF : FetchResult (Option (List RootEntry))) (pkgF : FetchResult (Option String))
    (decode : String → Option PkgJson) : FetchState :=
  match repoF with
  | .err st m => ⟨none, none, [], none, some (githubErrMsgRoute st m)⟩
  | .ok rd =>
    match langF with
    | .err st m => ⟨some rd, none, [], none, some (githubErrMsgRoute st m)⟩
    | .ok ls =>
      match rootF with
      | .err st m => ⟨some rd, some ls, [], none, some (githubErrMsgRoute st m)⟩
      | .ok rt =>
        match pkgF with
        | .err _ _ => ⟨some rd, some ls, rt.getD [], none, none⟩
        | .ok content =>
          ⟨some rd, some ls, rt.getD [],
            (match content with
             | some c => safeDecodeBase64 decode (some c)
             | none => none),
            none⟩

/-- Fragment `Repository URL: ...`. -/
def urlFragment (repoUrl : String) : String := "Repository URL: " ++ repoUrl

/-- Fragment emitted by `repoInfo ? \x7bDescription ...\x7d : two-quotes`. -/
def descriptionFragment (st : FetchState) : String :=
  match st.repoInfo with
  | some ri => "Description: " ++ jsOrOpt ri.description "N/A"
  | none => ""

/-- Fragment for the main language, guarded by `repoInfo` like the description. -/
def mainLanguageFragment (st : FetchState) : String :=
  match st.repoInfo with
  | some ri => "Main Language: " ++ jsOrOpt ri.language "N/A"
  | none => ""

/-- Fragment for `Object.keys(languages)` joined by a comma, guarded by the
truthiness of `languages` (an empty object is still truthy). -/
def languageBreakdownFragment (st : FetchState) : String :=
  match st.languages with
  | some ks => "Language Breakdown: " ++ String.intercalate ", " ks
  | none => ""

/-- Rendering of one root entry: the name, with a trailing slash for
directories. -/
def rootEntryStr (e : RootEntry) : String :=
  e.name ++ (if e.type = "dir" then "/" else "")

/-- Fragment for the root listing, guarded by `rootContent.length > 0`. -/
def rootContentsFragment (st : FetchState) : String :=
  if 0 < st.rootContent.length then
    "Root Directory Contents: " ++ String.intercalate ", " (st.rootContent.map rootEntryStr)
  else ""

/-- Fragment for the package name, guarded by the truthiness of the decoded
`package.json`. -/
def packageNameFragment (st : FetchState) : String :=
  match st.packageJsonContent with
  | some p => "Package Name: " ++ jsOrOpt p.name "N/A"
  | none => ""

/-- The dependencies text for a given key list: the first ten keys joined by
commas, a space, and an ellipsis exactly when more than ten keys exist. -/
def depsFragment (ks : List String) : String :=
  "Dependencies: " ++ String.intercalate ", " (ks.take 10) ++ " " ++
    (if 10 < ks.length then "..." else "")

/-- Fragment guarded by `packageJsonContent?.dependencies`. -/
def dependenciesFragment (st : FetchState) : String :=
  match st.packageJsonContent with
  | some p =>
    match p.dependencies with
    | some ks => depsFragment ks
    | none => ""
  | none => ""

/-- Fragment guarded by `packageJsonContent?.scripts`. -/
def scriptsFragment (st : FetchState) : String :=
  match st.packageJsonContent with
  | some p =>
    match p.scripts with
    | some ks => "Available Scripts: " ++ String.intercalate ", " ks
    | none => ""
  | none => ""

/-- The fetch-error note of the `Promise.all` variant; note the leading
newline inside the fragment itself. -/
def noteFragment (st : FetchState) : String :=
  match st.fetchError with
  | some fe => "\nNote: GitHub fetch error occurred: " ++ fe
  | none => ""

/-- The fetch-error note of the template-literal variant of the route. -/
def noteFragmentRoute (st : FetchState) : String :=
  match st.fetchError with
  | some fe => "\nNote: There was an error fetching full details from GitHub: " ++ fe
  | none => ""

/-- The ordered fragment array of the `Promise.all` variant, before
filtering. -/
def fragments (repoUrl : String) (st : FetchState) : List String :=
  [ urlFragment repoUrl,
    descriptionFragment st,
    mainLanguageFragment st,
    languageBreakdownFragment st,
    rootContentsFragment st,
    packageNameFragment st,
    dependenciesFragment st,
    scriptsFragment st,
    noteFragment st ]

/-- The assembled context of the `Promise.all` variant:
`[...].filter(Boolean).join(newline)`, where the truthy strings are exactly
the non-empty ones. -/
def contextOf (repoUrl : String) (st : FetchState) : String :=
  String.intercalate "\n" ((fragments repoUrl st).filter (fun s => s != ""))

/-- The assembled context of the template-literal variant
(`route.ts` lines 121 to 131): every fragment slot is preceded by a newline
and ten spaces of template indentation, whether or not the fragment is empty,
and the literal ends with a newline and eight spaces. -/
def contextTemplate (repoUrl : String) (st : FetchState) : String :=
  "\n          " ++ urlFragment repoUrl ++
  "\n          " ++ descriptionFragment st ++
  "\n          " ++ mainLanguageFragment st ++
  "\n          " ++ languageBreakdownFragment st ++
  "\n          " ++ rootContentsFragment st ++
  "\n          " ++ packageNameFragment st ++
  "\n          " ++ dependenciesFragment st ++
  "\n          " ++ scriptsFragment st ++
  "\n          " ++ noteFragmentRoute st ++
  "\n        "

/-- The prompt template of the `Promise.all` variant with the context
embedded. -/
def promptOf (context : String) : String :=
  "\n          Generate a README.md file in Markdown format based on the following context:\n          --- CONTEXT START ---\n          " ++
  context ++
  "\n          --- CONTEXT END ---\n\n          Focus on these sections, using the context: Project Title, Description, Technologies Used, Getting Started, Usage. Include placeholders if context is missing.\n          Format strictly as Markdown, starting directly with the title (e.g., \x27# Project Title\x27).\n        "

/-- The four GitHub calls the fetch phase issues (all four promises are
created before the join, so all four requests go out together). -/
def ghTrace (owner repo : String) : List NetCall :=
  [ NetCall.repoGet owner repo,
    NetCall.listLanguages owner repo,
    NetCall.getContent owner repo "",
    NetCall.getContent owner repo "package.json" ]

/-- The message of the outer catch block: prepend the fetch error when one was
recorded, then fall back to a generic message when the whole string is empty. -/
def processFailMsg (fetchError : Option String) (m : String) : String :=
  "Failed to process request: " ++
    jsOrStr (match fetchError with | some fe => fe ++ ". " ++ m | none => m)
      "Unknown AI processing error."

/-- The route handler `POST` of the `Promise.all` variant, as a function from
everything it observes to the HTTP response and the trace of outbound calls,
in program order: credential check, body/URL parsing, the GitHub fetch phase,
then the inference call and its response handling. -/
def POST (inp : HandlerInput) : Response × List NetCall :=
  if isFalsyOptStr inp.googleApiKey || isFalsyOptStr inp.githubPat then
    (⟨500, RespBody.error "Server configuration error."⟩, [])
  else
    match parsePhase inp.body with
    | .error m => (⟨400, RespBody.error m⟩, [])
    | .ok (repoUrl, owner, repo) =>
      let st := fetchPhase inp.repoFetch inp.langFetch inp.rootFetch inp.pkgFetch inp.decodePkg
      let gh := ghTrace owner repo
      let aiCall := NetCall.aiGenerate (promptOf (contextOf repoUrl st))
      match inp.ai with
      | .initThrow m =>
        (⟨500, RespBody.error (processFailMsg st.fetchError m)⟩, gh)
      | .requestThrow m =>
        (⟨500, RespBody.error (processFailMsg st.fetchError m)⟩, gh ++ [aiCall])
      | .noResponse =>
        (⟨500, RespBody.error "AI generation failed: No response received."⟩, gh ++ [aiCall])
      | .textErr m =>
        (⟨500, RespBody.error ("AI response error: " ++ jsOrStr m "Failed to extract content.")⟩, gh ++ [aiCall])
      | .textOk s =>
        (⟨200, RespBody.readme s⟩, gh ++ [aiCall])

example : parseRepoUrl "https://github.com/acme/widget" = some ("acme", "widget") := by decide
example : parseRepoUrl "https://GitHub.COM/acme/widget.git" = some ("acme", "widget") := by decide
example : parseRepoUrl "https://github.com/acme/widget/tree/main" = none := by decide
example : parseRepoUrl "evilgithub.com/o/r" = some ("o", "r") := by decide
example : parseRepoUrl "https://github.com/acme/widget/" = none := by decide
example : parseRepoUrl "github.com/a/.git" = some ("a", ".git") := by decide
example : parseRepoUrl "github.com/a/b.GIT" = some ("a", "b") := by decide
example : parseRepoUrl "github.com/a/b.git.git" = some ("a", "b.git") := by decide
example : parseRepoUrl "nope" = none := by decide

/-! Lemmas about the regex model. -/

lemma length_of_map_github {g : List Char} (hg : g.map asciiLower = githubChars) :
    g.length = 10 := by
  have h := congrArg List.length hg
  simpa [githubChars] using h

lemma takeWhile_slashFree_append (u w : List Char) (hu : slashFree u = true) :
    (u ++ '/' :: w).takeWhile (fun x => x != '/') = u ∧
    (u ++ '/' :: w).dropWhile (fun x => x != '/') = '/' :: w := by
  induction u with
  | nil => simp [List.takeWhile_cons, List.dropWhile_cons]
  | cons c u ih =>
    have hc : (c != '/') = true := by
      have := hu
      simp [slashFree, List.all_cons] at this
      simp [this.1]
    have hu' : slashFree u = true := by
      have := hu
      simp [slashFree, List.all_cons] at this ⊢
      exact this.2
    have ih' := ih hu'
    constructor
    · simpa [List.cons_append, List.takeWhile_cons, hc] using ih'.1
    · simpa [List.cons_append, List.dropWhile_cons, hc] using ih'.2

lemma reverse_shape (x o r : List Char) :
    (x ++ '/' :: (o ++ '/' :: r)).reverse = r.reverse ++ '/' :: (o.reverse ++ '/' :: x.reverse) := by
  simp [List.reverse_append, List.reverse_cons, List.append_assoc]

lemma slashFree_reverse {l : List Char} (h : slashFree l = true) : slashFree l.reverse = true := by
  simpa [slashFree, List.all_reverse] using h

/-- A string ending in `slash owner slash repo` with slash-free owner and repo
has only one such decomposition of its tail: the last two slashes determine
the two groups. -/
lemma ends_unique {x y o o' r r' : List Char}
    (ho : slashFree o = true) (ho' : slashFree o' = true)
    (hr : slashFree r = true) (hr' : slashFree r' = true)
    (heq : x ++ '/' :: (o ++ '/' :: r) = y ++ '/' :: (o' ++ '/' :: r')) :
    o = o' ∧ r = r' := by
  have hrev := congrArg List.reverse heq
  rw [reverse_shape, reverse_shape] at hrev
  have h1 := takeWhile_slashFree_append r.reverse (o.reverse ++ '/' :: x.reverse) (slashFree_reverse hr)
  have h2 := takeWhile_slashFree_append r'.reverse (o'.reverse ++ '/' :: y.reverse) (slashFree_reverse hr')
  have hrrev : r.reverse = r'.reverse := by
    rw [← h1.1, ← h2.1, hrev]
  have hrfin : r = r' := by
    have := congrArg List.reverse hrrev
    simpa using this
  have hdrop : ('/' :: (o.reverse ++ '/' :: x.reverse)) = ('/' :: (o'.reverse ++ '/' :: y.reverse)) := by
    rw [← h1.2, ← h2.2, hrev]
  have htail : o.reverse ++ '/' :: x.reverse = o'.reverse ++ '/' :: y.reverse :=
    List.cons.inj hdrop |>.2
  have h3 := takeWhile_slashFree_append o.reverse x.reverse (slashFree_reverse ho)
  have h4 := takeWhile_slashFree_append o'.reverse y.reverse (slashFree_reverse ho')
  have horev : o.reverse = o'.reverse := by
    rw [← h3.1, ← h4.1, htail]
  have hofin : o = o' := by
    have := congrArg List.reverse horev
    simpa using this
  exact ⟨hofin, hrfin⟩

/-- A match attempt at the start of `g ++ / owner / repo` succeeds and
captures the owner and the suffix-stripped repo. -/
lemma tryAt_decomp {g o r : List Char} (hg : g.map asciiLower = githubChars)
    (ho : slashFree o = true) (ho' : o ≠ []) (hr : slashFree r = true) (hr' : r ≠ []) :
    tryAt (g ++ '/' :: (o ++ '/' :: r)) = some (o, stripGit r) := by
  have hlen : g.length = 10 := length_of_map_github hg
  have htake : ((g ++ '/' :: (o ++ '/' :: r)).take 10) = g := by
    rw [← hlen]; exact List.take_left g _
  have hdrop : ((g ++ '/' :: (o ++ '/' :: r)).drop 10) = '/' :: (o ++ '/' :: r) := by
    rw [← hlen]; exact List.drop_left g _
  have htw := takeWhile_slashFree_append o r ho
  unfold tryAt
  rw [htake, hdrop, if_pos hg]
  unfold matchTail
  simp only [if_pos rfl, htw.1, htw.2]
  have hoe : o.isEmpty = false := by
    cases o with
    | nil => exact absurd rfl ho'
    | cons a l => rfl
  have hre : r.isEmpty = false := by
    cases r with
    | nil => exact absurd rfl hr'
    | cons a l => rfl
  simp [hoe, hre, hr]

/-- Inversion of a successful match attempt: the input decomposes as a case
variant of `github.com`, a slash, the captured owner, a slash, and a
slash-free residue whose stripped form is the captured repo. -/
lemma tryAt_some {s : List Char} {o' r' : List Char} (h : tryAt s = some (o', r')) :
    ∃ g r₂, s = g ++ '/' :: (o' ++ '/' :: r₂) ∧ g.map asciiLower = githubChars ∧
      slashFree o' = true ∧ o' ≠ [] ∧ slashFree r₂ = true ∧ r₂ ≠ [] ∧ r' = stripGit r₂ := by
  unfold tryAt at h
  by_cases hcond : (s.take 10).map asciiLower = githubChars
  · rw [if_pos hcond] at h
    cases hdrop : s.drop 10 with
    | nil => rw [hdrop] at h; exact absurd h (by simp [matchTail])
    | cons c u =>
      rw [hdrop] at h
      simp only [matchTail] at h
      by_cases hc : c = '/'
      · rw [if_pos hc] at h
        by_cases hoe : (u.takeWhile (fun x => x != '/')).isEmpty
        · simp only [hoe, if_true] at h
          exact absurd h (by simp)
        · simp only [hoe, if_false] at h
          cases hdw : u.dropWhile (fun x => x != '/') with
          | nil => rw [hdw] at h; exact absurd h (by simp)
          | cons d r₂ =>
            rw [hdw] at h
            have h : (if d = '/' then
                (if (r₂.isEmpty || !(slashFree r₂)) = true then none
                 else some (u.takeWhile (fun x => x != '/'), stripGit r₂))
                else none) = some (o', r') := h
            by_cases hd : d = '/'
            · subst hd
              rw [if_pos rfl] at h
              by_cases hbad : (r₂.isEmpty || !(slashFree r₂)) = true
              · rw [if_pos hbad] at h; exact absurd h (by simp)
              · rw [if_neg hbad] at h
                have hinj := Option.some.inj h
                have ho'eq : u.takeWhile (fun x => x != '/') = o' := congrArg Prod.fst hinj
                have hr'eq : r' = stripGit r₂ := (congrArg Prod.snd hinj).symm
                have hb1 : r₂.isEmpty = false := by
                  cases he : r₂.isEmpty
                  · rfl
                  · exact absurd (by rw [he]; rfl) hbad
                have hb2 : slashFree r₂ = true := by
                  cases hs : slashFree r₂
                  · exact absurd (by rw [hs, hb1]; rfl) hbad
                  · rfl
                have hu : u = o' ++ '/' :: r₂ := by
                  have haux := List.takeWhile_append_dropWhile (p := fun x => x != '/') (l := u)
                  rw [ho'eq, hdw] at haux
                  exact haux.symm
                subst hc
                refine ⟨s.take 10, r₂, ?_, hcond, ?_, ?_, hb2, ?_, hr'eq⟩
                · rw [← hu, ← hdrop]
                  exact (List.take_append_drop 10 s).symm
                · rw [← ho'eq]
                  show (u.takeWhile (fun x => x != '/')).all (fun c => c != '/') = true
                  have hall : ∀ x ∈ u.takeWhile (fun x => x != '/'), (x != '/') = true := by
                    intro x hx
                    exact @List.mem_takeWhile_imp Char (fun y => y != '/') u x hx
                  exact List.all_eq_true.mpr hall
                · intro hnil
                  rw [ho'eq, hnil] at hoe
                  exact hoe rfl
                · intro hnil
                  rw [hnil] at hb1
                  exact absurd hb1 (by simp)
            · rw [if_neg hd] at h; exact absurd h (by simp)
      · rw [if_neg hc] at h; exact absurd h (by simp)
  · rw [if_neg hcond] at h
    exact absurd h (by simp)

/-- Soundness and precision of the leftmost-match search on any input that
ends with a decomposable tail: whatever prefix precedes the matching region,
the extracted groups are the ones determined by the last two slashes. -/
lemma regexFind_decomp (pre : List Char) {g o r : List Char}
    (hg : g.map asciiLower = githubChars) (ho : slashFree o = true) (ho' : o ≠ [])
    (hr : slashFree r = true) (hr' : r ≠ []) :
    regexFind (pre ++ (g ++ '/' :: (o ++ '/' :: r))) = some (o, stripGit r) := by
  induction pre with
  | nil =>
    rw [List.nil_append]
    have hlen := length_of_map_github hg
    cases g with
    | nil => simp at hlen
    | cons gc gt =>
      rw [List.cons_append, regexFind, ← List.cons_append, tryAt_decomp hg ho ho' hr hr']
  | cons c pre ih =>
    rw [List.cons_append, regexFind]
    cases htry : tryAt (c :: (pre ++ (g ++ '/' :: (o ++ '/' :: r)))) with
    | none => exact ih
    | some v =>
      obtain ⟨v₁, v₂⟩ := v
      obtain ⟨g₂, r₂, hs, hg₂, ho₂, hne₂, hr₂, hrne₂, hv⟩ := tryAt_some htry
      have hs' : (c :: pre ++ g) ++ '/' :: (o ++ '/' :: r) = g₂ ++ '/' :: (v₁ ++ '/' :: r₂) := by
        rw [← hs]
        simp [List.cons_append, List.append_assoc]
      obtain ⟨heo, her⟩ := ends_unique ho ho₂ hr hr₂ hs'
      show some (v₁, v₂) = some (o, stripGit r)
      rw [heo, her, hv]

/-- Inversion of the leftmost-match search: a successful parse exhibits a
decomposition of the input. -/
lemma regexFind_some_decomp {s : List Char} {v : List Char × List Char}
    (h : regexFind s = some v) :
    ∃ pre g r₂, s = pre ++ (g ++ '/' :: (v.1 ++ '/' :: r₂)) ∧
      g.map asciiLower = githubChars ∧ slashFree v.1 = true ∧ v.1 ≠ [] ∧
      slashFree r₂ = true ∧ r₂ ≠ [] ∧ v.2 = stripGit r₂ := by
  induction s with
  | nil => simp [regexFind] at h
  | cons c t ih =>
    rw [regexFind] at h
    cases htry : tryAt (c :: t) with
    | some w =>
      rw [htry] at h
      have hw : w = v := by simpa using h
      subst hw
      obtain ⟨g₂, r₂, hs, hg₂, ho₂, hne₂, hr₂, hrne₂, hv⟩ := tryAt_some htry
      exact ⟨[], g₂, r₂, by simpa using hs, hg₂, ho₂, hne₂, hr₂, hrne₂, hv⟩
    | none =>
      rw [htry] at h
      obtain ⟨pre, g₂, r₂, hs, rest⟩ := ih h
      exact ⟨c :: pre, g₂, r₂, by rw [List.cons_append, ← hs], rest⟩

lemma toList_ne_nil {s : String} (h : s ≠ "") : s.toList ≠ [] := by
  intro hl
  apply h
  cases s with
  | mk data =>
    cases data with
    | nil => rfl
    | cons c cs => simp [String.toList] at hl

lemma toList_append (a b : String) : (a ++ b).toList = a.toList ++ b.toList :=
  String.data_append a b

/-- Acceptance characterisation of the URL check: the regex matches exactly
the strings that end in a case variant of `github.com`, a slash, a non-empty
slash-free owner, a slash, and a non-empty slash-free residue. -/
lemma parseRepoUrl_isSome_iff (s : String) :
    (parseRepoUrl s).isSome = true ↔
      ∃ pre g o r : List Char, s.toList = pre ++ (g ++ '/' :: (o ++ '/' :: r)) ∧
        g.map asciiLower = githubChars ∧ slashFree o = true ∧ o ≠ [] ∧
        slashFree r = true ∧ r ≠ [] := by
  constructor
  · intro h
    have h1 : (regexFind s.toList).isSome = true := by
      unfold parseRepoUrl at h
      cases hrf : regexFind s.toList
      · rw [hrf] at h; simp at h
      · simp
    obtain ⟨v, hv⟩ := Option.isSome_iff_exists.mp h1
    obtain ⟨pre, g₂, r₂, hs, hg₂, ho₂, hne₂, hr₂, hrne₂, _⟩ := regexFind_some_decomp hv
    exact ⟨pre, g₂, v.1, r₂, hs, hg₂, ho₂, hne₂, hr₂, hrne₂⟩
  · rintro ⟨pre, g, o, r, hs, hg, ho, hne, hr, hrne⟩
    unfold parseRepoUrl
    rw [hs, regexFind_decomp pre hg ho hne hr hrne]
    rfl

/-- The main parsing lemma behind C1: on an input that ends with
`github.com/<owner>/<repo>[.git]` the parser extracts that owner and repo. -/
lemma parseRepoUrl_decomp (pre g o r suf : String)
    (hg : g.toList.map asciiLower = githubChars)
    (ho : slashFree o.toList = true) (ho' : o ≠ "")
    (hr : slashFree r.toList = true) (hr' : r ≠ "")
    (hnogit : ¬ (5 ≤ r.toList.length ∧
      (r.toList.drop (r.toList.length - 4)).map asciiLower = gitSuffixChars))
    (hsuf : suf = "" ∨ suf = ".git") :
    parseRepoUrl (pre ++ g ++ "/" ++ o ++ "/" ++ r ++ suf) = some (o, r) := by
  have hslash : ("/" : String).toList = ['/'] := rfl
  have hlist : (pre ++ g ++ "/" ++ o ++ "/" ++ r ++ suf).toList
      = pre.toList ++ (g.toList ++ '/' :: (o.toList ++ '/' :: (r.toList ++ suf.toList))) := by
    simp [toList_append, hslash, List.append_assoc]
  have hrnil : r.toList ≠ [] := toList_ne_nil hr'
  have hRslash : slashFree (r.toList ++ suf.toList) = true := by
    rcases hsuf with h | h <;> subst h
    · show slashFree (r.toList ++ ("" : String).toList) = true
      rw [show ("" : String).toList = [] from rfl, List.append_nil]
      exact hr
    · have hsufsf : slashFree (".git" : String).toList = true := by decide
      simp only [slashFree, List.all_append, Bool.and_eq_true]
      exact ⟨hr, hsufsf⟩
  have hRnil : r.toList ++ suf.toList ≠ [] := by
    intro hnil
    exact hrnil (List.append_eq_nil.mp hnil).1
  have hstrip : stripGit (r.toList ++ suf.toList) = r.toList := by
    rcases hsuf with h | h <;> subst h
    · show stripGit (r.toList ++ ("" : String).toList) = r.toList
      rw [show ("" : String).toList = [] from rfl, List.append_nil]
      unfold stripGit
      rw [if_neg hnogit]
    · show stripGit (r.toList ++ (".git" : String).toList) = r.toList
      rw [show (".git" : String).toList = ['.', 'g', 'i', 't'] from rfl]
      have hlen : (r.toList ++ ['.', 'g', 'i', 't']).length = r.toList.length + 4 := by
        simp
      have hlen4 : (r.toList ++ ['.', 'g', 'i', 't']).length - 4 = r.toList.length := by
        rw [hlen]; omega
      have hpos : 0 < r.toList.length := List.length_pos.mpr hrnil
      unfold stripGit
      rw [hlen4, if_pos]
      · exact List.take_left r.toList _
      · constructor
        · rw [hlen]; omega
        · rw [List.drop_left r.toList ['.', 'g', 'i', 't']]
          decide
  unfold parseRepoUrl
  rw [hlist, regexFind_decomp pre.toList hg ho (toList_ne_nil ho') hRslash hRnil, hstrip]
  rfl

/-- C1: for every input string ending in a `github.com/<owner>/<repo>`
segment (the repo optionally suffixed by `.git`, the domain in any ASCII
letter case), the parser extracts exactly that owner and that repo, with the
`.git` suffix stripped.  The repo name itself is assumed not to carry a
strippable `.git` tail, which is what makes the decomposition unambiguous. -/
theorem parse_extracts_owner_repo (pre g o r suf : String)
    (hg : g.toList.map asciiLower = githubChars)
    (ho : slashFree o.toList = true) (ho' : o ≠ "")
    (hr : slashFree r.toList = true) (hr' : r ≠ "")
    (hnogit : ¬ (5 ≤ r.toList.length ∧
      (r.toList.drop (r.toList.length - 4)).map asciiLower = gitSuffixChars))
    (hsuf : suf = "" ∨ suf = ".git") :
    parseRepoUrl (pre ++ g ++ "/" ++ o ++ "/" ++ r ++ suf) = some (o, r) :=
  parseRepoUrl_decomp pre g o r suf hg ho ho' hr hr' hnogit hsuf

/-- Witness for C1 at a concrete input with a mixed-case domain and a `.git`
suffix. -/
theorem parse_extracts_owner_repo_witness :
    parseRepoUrl ("https://" ++ "GitHub.Com" ++ "/" ++ "acme" ++ "/" ++ "widget" ++ ".git")
      = some ("acme", "widget") :=
  parse_extracts_owner_repo "https://" "GitHub.Com" "acme" "widget" ".git"
    (by decide) (by decide) (by decide) (by decide) (by decide) (by decide) (Or.inr rfl)

/-- C9: the server-side URL check accepts an input string iff it ends with
`github.com/<owner>/<repo>` (owner and repo non-empty and slash-free, the
domain in any ASCII letter case); in particular it accepts scheme-less
strings and hosts that merely end in `github.com`, and rejects trailing
slashes and extra path segments, which the handler turns into a 400. -/
theorem url_check_characterisation :
    (∀ s : String, (parseRepoUrl s).isSome = true ↔
      ∃ pre g o r : List Char, s.toList = pre ++ (g ++ '/' :: (o ++ '/' :: r)) ∧
        g.map asciiLower = githubChars ∧ slashFree o = true ∧ o ≠ [] ∧
        slashFree r = true ∧ r ≠ []) ∧
    parseRepoUrl "evilgithub.com/o/r" = some ("o", "r") ∧
    parseRepoUrl "https://github.com/owner/repo/tree/main" = none ∧
    parseRepoUrl "https://github.com/owner/repo/" = none ∧
    POST ⟨some "tok", some "pat", ReqBody.strUrl "https://github.com/owner/repo/tree/main",
        FetchResult.ok ⟨none, none⟩, FetchResult.ok [], FetchResult.ok none,
        FetchResult.ok none, fun _ => none, AiOutcome.noResponse⟩
      = (⟨400, RespBody.error "Could not parse GitHub owner/repo from URL."⟩, []) := by
  exact ⟨parseRepoUrl_isSome_iff, by decide, by decide, by decide, rfl⟩

/-- Witness for C9: the acceptance direction applied at a concrete host that
merely ends in the hosting domain. -/
theorem url_check_characterisation_witness :
    (parseRepoUrl "x.github.com/a/b").isSome = true :=
  (url_check_characterisation.1 "x.github.com/a/b").mpr
    ⟨"x.".toList, "github.com".toList, ['a'], ['b'],
      by decide, by decide, by decide, by decide, by decide, by decide⟩

/-- C7: when either required credential is absent (or empty, which is equally
falsy), the handler returns the one fixed generic 500 response with an empty
network trace, identically whichever credential is missing. -/
theorem missing_credentials_uniform_500 (inp : HandlerInput)
    (h : isFalsyOptStr inp.googleApiKey = true ∨ isFalsyOptStr inp.githubPat = true) :
    POST inp = (⟨500, RespBody.error "Server configuration error."⟩, []) := by
  unfold POST
  rcases h with h | h <;> rw [h] <;> simp

/-- Witness for C7 at a concrete input with only the inference key missing. -/
theorem missing_credentials_uniform_500_witness :
    POST ⟨none, some "pat", ReqBody.strUrl "github.com/a/b", FetchResult.ok ⟨none, none⟩,
        FetchResult.ok [], FetchResult.ok none, FetchResult.ok none, fun _ => none,
        AiOutcome.textOk "x"⟩
      = (⟨500, RespBody.error "Server configuration error."⟩, []) :=
  missing_credentials_uniform_500 _ (Or.inl rfl)

/-- C2: with credentials configured, a request whose repoUrl carries no
recognizable `github.com/<owner>/<repo>` segment (an unparseable body, a
missing or non-string repoUrl, or a string the regex rejects) yields a 400
response with an error-string body and an empty outbound-call trace. -/
theorem unparseable_url_400_no_calls (inp : HandlerInput)
    (hk : isFalsyOptStr inp.googleApiKey = false)
    (hp : isFalsyOptStr inp.githubPat = false)
    (hbody : ∀ s, inp.body = ReqBody.strUrl s → parseRepoUrl s = none) :
    ∃ m, POST inp = (⟨400, RespBody.error m⟩, []) := by
  unfold POST
  rw [hk, hp]
  cases hb : inp.body with
  | badJson m => exact ⟨jsOrStr m "Invalid request format or URL.", by simp [parsePhase]⟩
  | missingUrl => exact ⟨"Could not parse GitHub owner/repo from URL.", by simp [parsePhase]⟩
  | nonString m => exact ⟨jsOrStr m "Invalid request format or URL.", by simp [parsePhase]⟩
  | strUrl s =>
    have hnone := hbody s hb
    exact ⟨"Could not parse GitHub owner/repo from URL.", by simp [parsePhase, hnone]⟩

/-- Witness for C2 at a concrete URL the regex rejects. -/
theorem unparseable_url_400_no_calls_witness :
    ∃ m, POST ⟨some "tok", some "pat", ReqBody.strUrl "nope", FetchResult.ok ⟨none, none⟩,
        FetchResult.ok [], FetchResult.ok none, FetchResult.ok none, fun _ => none,
        AiOutcome.textOk "x"⟩
      = (⟨400, RespBody.error m⟩, []) :=
  unparseable_url_400_no_calls _ rfl rfl
    (fun s h => by
      injection h with h1
      subst h1
      decide)

/-- C8: every response of the handler is exactly one of: 200 with a readme
body carrying the extracted model text verbatim, 400 with an error string, or
500 with an error string. -/
theorem response_shape (inp : HandlerInput) :
    (∃ s, inp.ai = AiOutcome.textOk s ∧ (POST inp).1 = ⟨200, RespBody.readme s⟩) ∨
    (∃ m, (POST inp).1 = ⟨400, RespBody.error m⟩) ∨
    (∃ m, (POST inp).1 = ⟨500, RespBody.error m⟩) := by
  simp only [POST]
  split
  · exact Or.inr (Or.inr ⟨_, rfl⟩)
  · split
    · exact Or.inr (Or.inl ⟨_, rfl⟩)
    · split
      · exact Or.inr (Or.inr ⟨_, rfl⟩)
      · exact Or.inr (Or.inr ⟨_, rfl⟩)
      · exact Or.inr (Or.inr ⟨_, rfl⟩)
      · exact Or.inr (Or.inr ⟨_, rfl⟩)
      · rename_i s heq
        exact Or.inl ⟨s, heq, rfl⟩

/-- C10: `safeDecodeBase64` is total: it returns `none` on an absent or empty
input, forwards the decode pipeline on any other input, and its result is
always either `none` or a decoded value. -/
theorem safeDecodeBase64_total {J : Type} (decode : String → Option J) :
    safeDecodeBase64 decode none = none ∧
    safeDecodeBase64 decode (some "") = none ∧
    (∀ s, s ≠ "" → safeDecodeBase64 decode (some s) = decode s) ∧
    (∀ enc, safeDecodeBase64 decode enc = none ∨ ∃ v, safeDecodeBase64 decode enc = some v) := by
  refine ⟨rfl, by simp [safeDecodeBase64], fun s hs => by simp [safeDecodeBase64, hs],
    fun enc => ?_⟩
  cases h : safeDecodeBase64 decode enc with
  | none => exact Or.inl rfl
  | some v => exact Or.inr ⟨v, rfl⟩

/-- Witness for C10 with a concrete decode pipeline. -/
theorem safeDecodeBase64_total_witness :
    safeDecodeBase64 (fun _ => some 0) (some "eyJ9") = some 0 ∧
    safeDecodeBase64 (fun _ => (none : Option Nat)) none = none :=
  ⟨(safeDecodeBase64_total (fun _ => some 0)).2.2.1 "eyJ9" (by decide),
    (safeDecodeBase64_total (fun _ => (none : Option Nat))).1⟩

/-- C6: with more than ten dependency keys the fragment lists exactly the
first ten followed by the ellipsis indicator; with at most ten, all keys are
listed and no indicator is emitted (only the separating space remains). -/
theorem deps_truncation (ks : List String) :
    (10 < ks.length →
      depsFragment ks = "Dependencies: " ++ String.intercalate ", " (ks.take 10) ++ " ..." ∧
      (ks.take 10).length = 10) ∧
    (ks.length ≤ 10 →
      depsFragment ks = "Dependencies: " ++ String.intercalate ", " ks ++ " ") := by
  constructor
  · intro h
    constructor
    · unfold depsFragment
      rw [if_pos h, String.append_assoc, show (" " ++ "..." : String) = " ..." by decide]
    · rw [List.length_take]
      omega
  · intro h
    unfold depsFragment
    rw [if_neg (by omega), List.take_of_length_le h]
    simp

/-- Witness for C6 at eleven and at two dependency names. -/
theorem deps_truncation_witness :
    depsFragment ["a", "b", "c", "d", "e", "f", "g", "h", "i", "j", "k"]
      = "Dependencies: a, b, c, d, e, f, g, h, i, j ..." ∧
    depsFragment ["a", "b"] = "Dependencies: a, b " := by
  constructor
  · rw [((deps_truncation ["a", "b", "c", "d", "e", "f", "g", "h", "i", "j", "k"]).1
      (by decide)).1]
    decide
  · rw [(deps_truncation ["a", "b"]).2 (by decide)]
    decide

/-- C4 counterexample: in the template-literal variant of the route the inner
catch around the package.json request only logs, so a non-404 failure (here a
403) is not propagated as a fetch failure: the fetch phase succeeds with no
fetch error and behaves exactly as it does on a 404. -/
theorem pkg_non404_swallowed_counterexample :
    fetchPhaseRoute (FetchResult.ok ⟨some "d", some "TS"⟩) (FetchResult.ok ["TS"])
        (FetchResult.ok (some [])) (FetchResult.err (some 403) "Forbidden") (fun _ => none)
      = ⟨some ⟨some "d", some "TS"⟩, some ["TS"], [], none, none⟩ ∧
    (fetchPhaseRoute (FetchResult.ok ⟨some "d", some "TS"⟩) (FetchResult.ok ["TS"])
        (FetchResult.ok (some [])) (FetchResult.err (some 403) "Forbidden")
        (fun _ => none)).fetchError = none ∧
    fetchPhaseRoute (FetchResult.ok ⟨some "d", some "TS"⟩) (FetchResult.ok ["TS"])
        (FetchResult.ok (some [])) (FetchResult.err (some 403) "Forbidden") (fun _ => none)
      = fetchPhaseRoute (FetchResult.ok ⟨some "d", some "TS"⟩) (FetchResult.ok ["TS"])
          (FetchResult.ok (some [])) (FetchResult.err (some 404) "Not Found")
          (fun _ => none) :=
  ⟨rfl, rfl, rfl⟩

/-- C4 (amended): a 404 on the optional package.json lookup resolves to an
absent manifest in both variants: the fetch phase succeeds with no fetch
error and the manifest-derived fragments and the error note are all empty.  A
non-404 package.json failure is propagated as a fetch failure only in the
`Promise.all` variant, whose catch re-throws it; in the template-literal
variant the inner catch swallows every package.json failure, so the request
proceeds exactly as if the manifest were absent. -/
theorem pkg_404_optional (rd : RepoData) (ls : List String) (rt : Option (List RootEntry))
    (st : Option Nat) (m : String) (decode : String → Option PkgJson) :
    (st = some 404 →
      fetchPhase (FetchResult.ok rd) (FetchResult.ok ls) (FetchResult.ok rt)
          (FetchResult.err st m) decode
        = ⟨some rd, some ls, rt.getD [], none, none⟩ ∧
      (∀ u : String,
        packageNameFragment (fetchPhase (FetchResult.ok rd) (FetchResult.ok ls)
          (FetchResult.ok rt) (FetchResult.err st m) decode) = "" ∧
        dependenciesFragment (fetchPhase (FetchResult.ok rd) (FetchResult.ok ls)
          (FetchResult.ok rt) (FetchResult.err st m) decode) = "" ∧
        scriptsFragment (fetchPhase (FetchResult.ok rd) (FetchResult.ok ls)
          (FetchResult.ok rt) (FetchResult.err st m) decode) = "" ∧
        noteFragment (fetchPhase (FetchResult.ok rd) (FetchResult.ok ls)
          (FetchResult.ok rt) (FetchResult.err st m) decode) = "" ∧
        urlFragment u ∈ (fragments u (fetchPhase (FetchResult.ok rd) (FetchResult.ok ls)
          (FetchResult.ok rt) (FetchResult.err st m) decode)).filter (fun s => s != ""))) ∧
    (st ≠ some 404 →
      fetchPhase (FetchResult.ok rd) (FetchResult.ok ls) (FetchResult.ok rt)
          (FetchResult.err st m) decode
        = failState st m) ∧
    fetchPhaseRoute (FetchResult.ok rd) (FetchResult.ok ls) (FetchResult.ok rt)
        (FetchResult.err st m) decode
      = ⟨some rd, some ls, rt.getD [], none, none⟩ := by
  refine ⟨?_, ?_, rfl⟩
  · intro h
    subst h
    have hstate : fetchPhase (FetchResult.ok rd) (FetchResult.ok ls) (FetchResult.ok rt)
        (FetchResult.err (some 404) m) decode
        = ⟨some rd, some ls, rt.getD [], none, none⟩ := rfl
    refine ⟨hstate, fun u => ?_⟩
    rw [hstate]
    refine ⟨rfl, rfl, rfl, rfl, ?_⟩
    apply List.mem_filter.mpr
    constructor
    · exact List.mem_cons_self _ _
    · show (urlFragment u != "") = true
      have : urlFragment u ≠ "" := by
        intro hu
        have := congrArg String.toList hu
        rw [urlFragment, toList_append] at this
        simp at this
      simpa using this
  · intro h
    have hpc : pkgCaught (FetchResult.err st m) = FetchResult.err st m := by
      show (if st = some 404 then FetchResult.ok none else FetchResult.err st m)
          = FetchResult.err st m
      rw [if_neg h]
    unfold fetchPhase
    rw [hpc]

/-- Witness for C4 at a concrete 404 and at a concrete 403, in both
variants. -/
theorem pkg_404_optional_witness :
    fetchPhase (FetchResult.ok ⟨some "d", some "TS"⟩) (FetchResult.ok ["TS"])
        (FetchResult.ok (some [])) (FetchResult.err (some 404) "Not Found") (fun _ => none)
      = ⟨some ⟨some "d", some "TS"⟩, some ["TS"], [], none, none⟩ ∧
    fetchPhase (FetchResult.ok ⟨some "d", some "TS"⟩) (FetchResult.ok ["TS"])
        (FetchResult.ok (some [])) (FetchResult.err (some 403) "Forbidden") (fun _ => none)
      = failState (some 403) "Forbidden" ∧
    fetchPhaseRoute (FetchResult.ok ⟨some "d", some "TS"⟩) (FetchResult.ok ["TS"])
        (FetchResult.ok (some [])) (FetchResult.err (some 403) "Forbidden") (fun _ => none)
      = ⟨some ⟨some "d", some "TS"⟩, some ["TS"], [], none, none⟩ :=
  ⟨((pkg_404_optional ⟨some "d", some "TS"⟩ ["TS"] (some []) (some 404) "Not Found"
      (fun _ => none)).1 rfl).1,
    (pkg_404_optional ⟨some "d", some "TS"⟩ ["TS"] (some []) (some 403) "Forbidden"
      (fun _ => none)).2.1 (by decide),
    (pkg_404_optional ⟨some "d", some "TS"⟩ ["TS"] (some []) (some 403) "Forbidden"
      (fun _ => none)).2.2⟩

/-- C5 counterexample: the assembled context is not always free of blank
lines.  In the `Promise.all` variant a recorded fetch error makes the joined
context contain an empty line (the note fragment starts with a newline), and
in the template-literal variant an all-missing state leaves an indented
whitespace-only line per missing fragment. -/
theorem context_blank_line_counterexample :
    contextOf "u" (failState (some 500) "boom")
      = "Repository URL: u\n\nNote: GitHub fetch error occurred: Failed to fetch data from GitHub (Status: 500). boom" ∧
    ['\n', '\n'] <:+: (contextOf "u" (failState (some 500) "boom")).toList ∧
    ("\n          \n" : String).toList <:+:
      (contextTemplate "u" ⟨none, none, [], none, none⟩).toList := by
  refine ⟨by decide, by decide, by decide⟩

/-- C5 (amended): in the `Promise.all` variant the context is the
newline-join of exactly the non-empty fragments, kept in the fixed order
(filtering preserves the order of the fragment array), with every empty
fragment dropped and every non-empty fragment kept; the fragments themselves
may span lines (the fetch-error note starts with a newline), and the
template-literal variant does not drop empty fragments at all. -/
theorem context_nonempty_fragments (u : String) (st : FetchState) :
    contextOf u st
      = String.intercalate "\n" ((fragments u st).filter (fun s => s != "")) ∧
    (∀ f ∈ (fragments u st).filter (fun s => s != ""), f ≠ "") ∧
    ((fragments u st).filter (fun s => s != "")).Sublist (fragments u st) ∧
    (∀ f ∈ fragments u st, f ≠ "" → f ∈ (fragments u st).filter (fun s => s != "")) := by
  refine ⟨rfl, ?_, List.filter_sublist _, ?_⟩
  · intro f hf
    have hp := List.of_mem_filter hf
    simpa using hp
  · intro f hf hne
    exact List.mem_filter.mpr ⟨hf, by simpa using hne⟩

/-- Witness for C5 (amended) at a concrete state. -/
theorem context_nonempty_fragments_witness :
    contextOf "u" ⟨none, none, [], none, none⟩
      = String.intercalate "\n"
          ((fragments "u" ⟨none, none, [], none, none⟩).filter (fun s => s != "")) :=
  (context_nonempty_fragments "u" ⟨none, none, [], none, none⟩).1

/-- The recorded fetch-error string is contained in the error message of the
outer catch block. -/
lemma infix_processFailMsg (fe m : String) :
    fe.toList <:+: (processFailMsg (some fe) m).toList := by
  unfold processFailMsg jsOrStr
  by_cases hempty : (fe ++ ". " ++ m) = ""
  · exfalso
    have hl := congrArg String.toList hempty
    rw [toList_append, toList_append] at hl
    simp at hl
  · show fe.toList <:+:
      ("Failed to process request: " ++
        (if (fe ++ ". " ++ m) = "" then "Unknown AI processing error." else fe ++ ". " ++ m)).toList
    rw [if_neg hempty]
    refine ⟨("Failed to process request: " : String).toList, (". " ++ m : String).toList, ?_⟩
    simp [toList_append, List.append_assoc]

/-- C3 counterexample: with the repository fetch failed and the model
returning no response object, generation fails but the 500 error does not
mention the fetch failure. -/
theorem fetch_failure_not_mentioned_counterexample :
    (POST ⟨some "tok", some "pat", ReqBody.strUrl "github.com/a/b",
        FetchResult.err (some 500) "boom", FetchResult.ok [], FetchResult.ok none,
        FetchResult.ok none, fun _ => none, AiOutcome.noResponse⟩).1
      = ⟨500, RespBody.error "AI generation failed: No response received."⟩ ∧
    ¬ ((githubErrMsg (some 500) "boom").toList <:+:
        ("AI generation failed: No response received." : String).toList) := by
  refine ⟨rfl, by decide⟩

/-- C3 (amended): after a mandatory fetch failure the handler still calls the
inference API with the context built from the failed state; a successful
generation yields 200 with the readme; a rejected generation request reaches
the outer catch, whose 500 error contains the fetch-error string; but a
missing response object yields a fixed 500 message that does not reference
the fetch failure. -/
theorem fetch_failure_generation_outcomes (inp : HandlerInput)
    (st : Option Nat) (fmsg : String) (u o r : String)
    (hk : isFalsyOptStr inp.googleApiKey = false)
    (hp : isFalsyOptStr inp.githubPat = false)
    (hb : inp.body = ReqBody.strUrl u)
    (hu : parseRepoUrl u = some (o, r))
    (hf : inp.repoFetch = FetchResult.err st fmsg) :
    (∀ gen, inp.ai = AiOutcome.textOk gen →
      POST inp = (⟨200, RespBody.readme gen⟩,
        ghTrace o r ++ [NetCall.aiGenerate (promptOf (contextOf u (failState st fmsg)))])) ∧
    (∀ m, inp.ai = AiOutcome.requestThrow m →
      POST inp = (⟨500, RespBody.error (processFailMsg (some (githubErrMsg st fmsg)) m)⟩,
        ghTrace o r ++ [NetCall.aiGenerate (promptOf (contextOf u (failState st fmsg)))]) ∧
      (githubErrMsg st fmsg).toList
        <:+: (processFailMsg (some (githubErrMsg st fmsg)) m).toList) ∧
    (inp.ai = AiOutcome.noResponse →
      POST inp = (⟨500, RespBody.error "AI generation failed: No response received."⟩,
        ghTrace o r ++ [NetCall.aiGenerate (promptOf (contextOf u (failState st fmsg)))])) := by
  have hstate : fetchPhase inp.repoFetch inp.langFetch inp.rootFetch inp.pkgFetch inp.decodePkg
      = failState st fmsg := by
    rw [hf]
    rfl
  refine ⟨fun gen hai => ?_, fun m hai => ⟨?_, infix_processFailMsg _ m⟩, fun hai => ?_⟩ <;>
    · unfold POST
      rw [hk, hp, hb]
      simp only [Bool.or_self, Bool.false_eq_true, if_false, parsePhase, hu, hstate, hai,
        failState]

/-- Witness for C3 (amended) at a concrete failed fetch with a successful
generation and with a rejected generation request. -/
theorem fetch_failure_generation_outcomes_witness :
    POST ⟨some "tok", some "pat", ReqBody.strUrl "github.com/a/b",
        FetchResult.err (some 500) "boom", FetchResult.ok [], FetchResult.ok none,
        FetchResult.ok none, fun _ => none, AiOutcome.textOk "# readme"⟩
      = (⟨200, RespBody.readme "# readme"⟩,
        ghTrace "a" "b" ++
          [NetCall.aiGenerate (promptOf (contextOf "github.com/a/b"
            (failState (some 500) "boom")))]) :=
  (fetch_failure_generation_outcomes
    ⟨some "tok", some "pat", ReqBody.strUrl "github.com/a/b",
      FetchResult.err (some 500) "boom", FetchResult.ok [], FetchResult.ok none,
      FetchResult.ok none, fun _ => none, AiOutcome.textOk "# readme"⟩
    (some 500) "boom" "github.com/a/b" "a" "b" rfl rfl rfl (by decide) rfl).1
    "# readme" rfl

end ReadmeGen
